import Mathlib

set_option autoImplicit false

namespace PandsQai

/-- JavaScript runtime values that can appear as a question's server-side
ground truth (the `answer: unknown` field of `QuizItemShape`).  Numbers are
modelled as integers (every embedded ground truth is a string, a boolean,
an integer-valued number, or a JSON object such as the date-range record);
`jundef` is the JS `undefined`. -/
inductive Jval where
  | jundef
  | jnull
  | jbool (b : Bool)
  | jnum (n : Int)
  | jstr (s : String)
  | jarr (elems : List Jval)
  | jobj (fields : List (String × Jval))

/-- Lower-case hexadecimal digit, as produced inside a JSON `\u00XX` escape. -/
def hexDigit (n : Nat) : Char :=
  if n < 10 then Char.ofNat (48 + n) else Char.ofNat (87 + n)

/-- JSON escaping of one character, as `JSON.stringify` performs on the
characters of a string value. -/
def escapeChar (c : Char) : List Char :=
  if c = '"' then ['\\', '"']
  else if c = '\\' then ['\\', '\\']
  else if c = '\x08' then ['\\', 'b']
  else if c = '\x0c' then ['\\', 'f']
  else if c = '\n' then ['\\', 'n']
  else if c = '\r' then ['\\', 'r']
  else if c = '\t' then ['\\', 't']
  else if c.toNat < 32 then
    ['\\', 'u', '0', '0', hexDigit (c.toNat / 16), hexDigit (c.toNat % 16)]
  else [c]

/-- Serialization of a string value by `JSON.stringify`: double quotes
around the escaped characters. -/
def jsonQuote (s : String) : String :=
  ⟨'"' :: (s.data.map escapeChar).flatten ++ ['"']⟩

mutual

/-- Model of `JSON.stringify` on a value, as invoked from `toAnswerString`
on non-primitive answers.  An `undefined` reaches this function only in
array positions, where `JSON.stringify` emits `null`. -/
def serialize : Jval → String
  | .jundef => "null"
  | .jnull => "null"
  | .jbool b => if b then "true" else "false"
  | .jnum n => toString n
  | .jstr s => jsonQuote s
  | .jarr xs => "[" ++ serializeItems xs ++ "]"
  | .jobj fs => "\x7b" ++ serializeFields fs ++ "\x7d"

/-- Comma-separated serialization of array elements. -/
def serializeItems : List Jval → String
  | [] => ""
  | [x] => serialize x
  | x :: y :: rest => serialize x ++ "," ++ serializeItems (y :: rest)

/-- Comma-separated serialization of object fields; keys whose value is
`undefined` are omitted, as `JSON.stringify` does.  A serialized field is
never the empty string (it starts with a quoted key), so the emptiness
test on the serialized tail correctly detects whether a comma is needed. -/
def serializeFields : List (String × Jval) → String
  | [] => ""
  | (_, .jundef) :: rest => serializeFields rest
  | (k, v) :: rest =>
      let item := jsonQuote k ++ ":" ++ serialize v
      let r := serializeFields rest
      if r = "" then item else item ++ "," ++ r

end

/-- The quiz item shape read from `Question` payloads: `id`, `prompt`,
`choices` (present means multiple-choice, absent means short-answer) and
the server-side ground truth `answer`.  The runtime guard `isQuizItem`
checks exactly this shape, so in the typed embedding it holds of every
`Question` and the `if (!isQuizItem(q))` early exits never fire. -/
structure Question where
  id : String
  prompt : String
  choices : Option (List String)
  answer : Jval

/-- Persisted user answer per question (the `SavedAnswer` union); the
`undefined` member of the union is represented by an absent map entry. -/
inductive SavedAnswer where
  | mc (index : Nat)
  | text (value : String)
deriving DecidableEq

/-- Model of the `Record<string, SavedAnswer>` of saved answers, as a
lookup function: absent keys give `none` (JS `undefined`). -/
def AnswerMap : Type := String → Option SavedAnswer

/-- Model of `toAnswerString`: normalize any value to a string for
comparison.  JS `null` and `undefined` give the empty string; strings,
numbers and booleans go through `String(·)`; everything else (objects and
arrays) through `JSON.stringify`, which never throws on these finite
acyclic values, so the `catch` fallback is dead code. -/
def toAnswerString : Jval → String
  | .jnull => ""
  | .jundef => ""
  | .jstr s => s
  | .jnum n => toString n
  | .jbool b => if b then "true" else "false"
  | .jarr xs => serialize (.jarr xs)
  | .jobj fs => serialize (.jobj fs)

/-- The JavaScript whitespace class on code points: exactly the set
matched by the regular expression `\s`, which is also the set stripped by
`String.prototype.trim`. -/
def wsCode (n : Nat) : Bool :=
  decide (n = 9 ∨ n = 10 ∨ n = 11 ∨ n = 12 ∨ n = 13 ∨ n = 32 ∨ n = 160 ∨
    n = 0x1680 ∨ (0x2000 ≤ n ∧ n ≤ 0x200a) ∨ n = 0x2028 ∨ n = 0x2029 ∨
    n = 0x202f ∨ n = 0x205f ∨ n = 0x3000 ∨ n = 0xfeff)

/-- Whitespace test on characters. -/
def ws (c : Char) : Bool := wsCode c.toNat

/-- ASCII fragment of `String.prototype.toLowerCase`: the uppercase
letters `A`..`Z` map to `a`..`z`, every other character is unchanged.
The runtime's full Unicode case conversion (non-ASCII lowercasings and
the one-to-many special casings) is not modelled; results below use
`normalizeText` only through equalities that hold uniformly in the case
mapping and never rely on this fragment being the whole conversion. -/
def lowerC (c : Char) : Char :=
  if 65 ≤ c.toNat ∧ c.toNat ≤ 90 then Char.ofNat (c.toNat + 32) else c

/-- Model of `String.prototype.trim`: drop leading and trailing
whitespace. -/
def trimL (l : List Char) : List Char :=
  ((l.dropWhile ws).reverse.dropWhile ws).reverse

/-- One global pass of `replace(/\s+/g, " ")`.  The boolean flag records
whether the previous character belonged to a whitespace run: the first
character of each maximal run becomes a single space and the rest of the
run is dropped. -/
def collapseAux : Bool → List Char → List Char
  | _, [] => []
  | prev, c :: rest =>
      if ws c then
        if prev then collapseAux true rest else ' ' :: collapseAux true rest
      else
        c :: collapseAux false rest

/-- Model of `replace(/\s+/g, " ")`: collapse every maximal whitespace
run to one space. -/
def collapseL (l : List Char) : List Char := collapseAux false l

/-- Light normalization for user-entered text (`normalizeText`), on the
character list: `s.trim().replace(/\s+/g, " ").toLowerCase()`. -/
def normalizeTextL (l : List Char) : List Char :=
  (collapseL (trimL l)).map lowerC

/-- Model of `normalizeText` on strings. -/
def normalizeText (s : String) : String := ⟨normalizeTextL s.data⟩

/-- Property that the first character, if any, is not whitespace. -/
def headNotWs (l : List Char) : Prop := ∀ c, l.head? = some c → ws c = false

/-- Model of `getChoices`: safely extract choices; `none` (JS `null`)
means short-answer.  An empty choice list is still "present", matching
`q.choices ?? null` (an empty array is truthy in JS). -/
def getChoices (q : Question) : Option (List String) := q.choices

/-- Model of `getCorrectIndex`: find the index of the correct choice by
string equality, `choices.findIndex((c) => String(c) === ansStr)`, with
`idx >= 0 ? idx : null` giving the optional result. -/
def getCorrectIndex (q : Question) (choices : Option (List String)) : Option Nat :=
  match choices with
  | none => none
  | some cs => cs.findIdx? (fun c => decide (c = toAnswerString q.answer))

/-- Model of `isShortAnswerCorrect`: compare normalized strings; an empty
normalized ground truth is never correct. -/
def isShortAnswerCorrect (q : Question) (userText : String) : Bool :=
  let truth := normalizeText (toAnswerString q.answer)
  let got := normalizeText userText
  decide (truth.length > 0) && decide (got = truth)

/-- Contribution of one question inside the `computeScore` loop: `1`
exactly when the loop body executes `s += 1` for this question, else `0`. -/
def questionPoints (answers : AnswerMap) (q : Question) : Nat :=
  match getChoices q with
  | some cs =>
      match answers q.id, getCorrectIndex q (some cs) with
      | some (.mc i), some ci => if i = ci then 1 else 0
      | _, _ => 0
  | none =>
      match answers q.id with
      | some (.text v) => if isShortAnswerCorrect q v then 1 else 0
      | _ => 0

/-- Model of `computeScore`: recompute the score from saved answers
against the current questions, accumulating `s` over the loop. -/
def computeScore (answers : AnswerMap) (questions : List Question) : Nat :=
  questions.foldl (fun s q => s + questionPoints answers q) 0

/-- Short-answer question whose stringified ground truth is the empty
string, so that its normalization is empty as well. -/
def qEmptyTruth : Question := ⟨"q1", "p", none, Jval.jstr ""⟩

/-- Answer map recording exactly the stringified ground truth of
`qEmptyTruth` as the submitted text. -/
def ansEmptyTruth : AnswerMap :=
  fun id => if id = "q1" then some (SavedAnswer.text (toAnswerString (Jval.jstr ""))) else none

/-- Multiple-choice question whose ground truth `"3"` matches neither of
its rendered choices: a template-invariant violation. -/
def qViolated : Question := ⟨"q1", "p", some ["1", "2"], Jval.jstr "3"⟩

/-- Two-question set (one multiple-choice, one short-answer) used to
witness the round-trip scoring property. -/
def rtQs : List Question :=
  [⟨"a", "p", some ["x", "y"], Jval.jstr "y"⟩, ⟨"b", "p", none, Jval.jstr "OK"⟩]

/-- Answer map recording the exact ground truth of each question of
`rtQs`: the correct choice index for the first, the stringified ground
truth for the second. -/
def rtAns : AnswerMap :=
  fun id =>
    if id = "a" then some (SavedAnswer.mc 1)
    else if id = "b" then some (SavedAnswer.text "OK") else none

/-- Short-answer question whose ground truth is a date-range object, as
the date-range template produces. -/
def drQ : Question :=
  ⟨"d", "range", none,
    Jval.jobj [("min", Jval.jstr "2020-01-01"), ("max", Jval.jstr "2020-12-31")]⟩

/-! Helper lemmas about the scoring loop. -/

lemma foldl_points_shift (p : Question → Nat) (qs : List Question) :
    ∀ s : Nat, qs.foldl (fun a q => a + p q) s = s + qs.foldl (fun a q => a + p q) 0 := by
  induction qs with
  | nil => intro s; simp
  | cons q rest ih =>
      intro s
      simp only [List.foldl_cons]
      rw [ih (s + p q), ih (0 + p q)]
      omega

lemma computeScore_cons (a : AnswerMap) (q : Question) (qs : List Question) :
    computeScore a (q :: qs) = questionPoints a q + computeScore a qs := by
  unfold computeScore
  simp only [List.foldl_cons]
  rw [foldl_points_shift]
  omega

lemma questionPoints_le_one (a : AnswerMap) (q : Question) : questionPoints a q ≤ 1 := by
  unfold questionPoints
  split
  · split
    · split <;> omega
    · omega
  · split
    · split <;> omega
    · omega

lemma string_eq_empty_iff (s : String) : s = "" ↔ s.data = [] := by
  cases s with
  | mk l =>
      constructor
      · intro h
        exact congrArg String.data h
      · intro h
        subst h
        rfl

lemma string_length_pos_iff (s : String) : 0 < s.length ↔ s ≠ "" := by
  rw [show s.length = s.data.length from rfl, List.length_pos]
  exact (not_congr (string_eq_empty_iff s)).symm

lemma isShortAnswerCorrect_iff (q : Question) (t : String) :
    isShortAnswerCorrect q t = true ↔
      normalizeText (toAnswerString q.answer) ≠ "" ∧
      normalizeText t = normalizeText (toAnswerString q.answer) := by
  unfold isShortAnswerCorrect
  simp only [Bool.and_eq_true, decide_eq_true_eq]
  exact and_congr_left fun _ => string_length_pos_iff _

/-- C1: for a short-answer question (no choices) whose stringified ground
truth normalizes to a non-empty string, a submitted text is judged
correct exactly when its normalization (trim, collapse whitespace runs to
one space, lowercase) equals the normalized stringified ground truth. -/
theorem shortAnswer_correct_iff (q : Question) (t : String)
    (_hsa : getChoices q = none)
    (hne : normalizeText (toAnswerString q.answer) ≠ "") :
    isShortAnswerCorrect q t = true ↔
      normalizeText t = normalizeText (toAnswerString q.answer) := by
  rw [isShortAnswerCorrect_iff]
  exact and_iff_right hne

/-- Witness for C1 at a concrete short-answer question. -/
theorem shortAnswer_correct_iff_witness :
    isShortAnswerCorrect ⟨"q1", "capital?", none, Jval.jstr "Paris"⟩ "  PARIS  " = true :=
  (shortAnswer_correct_iff ⟨"q1", "capital?", none, Jval.jstr "Paris"⟩ "  PARIS  "
    rfl (by decide)).mpr (by decide)

/-- C2: for a multiple-choice question, a submission is scored correct
exactly when it is a choice index equal to the index at which the
stringified ground truth is found in the rendered choice list by exact
string equality. -/
theorem mc_correct_iff (a : AnswerMap) (q : Question) (cs : List String)
    (hc : getChoices q = some cs) :
    questionPoints a q = 1 ↔
      ∃ i, a q.id = some (SavedAnswer.mc i) ∧
        cs.findIdx? (fun c => decide (c = toAnswerString q.answer)) = some i := by
  have h0 : questionPoints a q =
      match a q.id, cs.findIdx? (fun c => decide (c = toAnswerString q.answer)) with
      | some (.mc i), some ci => if i = ci then 1 else 0
      | _, _ => 0 := by
    unfold questionPoints
    rw [hc]
    rfl
  rw [h0]
  constructor
  · intro h1
    split at h1
    · next i ci hA hF =>
        split at h1
        · next hi => exact ⟨i, hA, by rw [hF, hi]⟩
        · exact absurd h1 (by omega)
    · exact absurd h1 (by omega)
  · rintro ⟨i, hA, hF⟩
    rw [hA, hF]
    simp

/-- Witness for C2 at a concrete multiple-choice question. -/
theorem mc_correct_iff_witness :
    questionPoints (fun _ => some (SavedAnswer.mc 1))
      ⟨"q1", "pick", some ["a", "b"], Jval.jstr "b"⟩ = 1 :=
  (mc_correct_iff (fun _ => some (SavedAnswer.mc 1))
    ⟨"q1", "pick", some ["a", "b"], Jval.jstr "b"⟩ ["a", "b"] rfl).mpr
    ⟨1, rfl, by decide⟩

/-- C4: the score is a pure re-derivation from the answer map and the
question list.  In the embedding `computeScore` is a mathematical
function, so two evaluations on the same arguments are equal by
construction; this theorem states the stronger order-independence fact
behind it: the loop accumulator computes exactly the sum of the
independent per-question contributions, equal to the reversed-order
(right) fold, so no hidden mutable state influences the result. -/
theorem computeScore_pure_rederivation (a : AnswerMap) (qs : List Question) :
    computeScore a qs = (qs.map (questionPoints a)).sum ∧
    computeScore a qs = qs.foldr (fun q s => questionPoints a q + s) 0 := by
  constructor
  · induction qs with
    | nil => rfl
    | cons q rest ih => rw [computeScore_cons, ih, List.map_cons, List.sum_cons]
  · induction qs with
    | nil => rfl
    | cons q rest ih => rw [computeScore_cons, ih, List.foldr_cons]

/-- C5: a short-answer question whose stringified ground truth normalizes
to the empty string is never scored correct, whatever text is submitted. -/
theorem shortAnswer_empty_truth_never_correct (q : Question)
    (h : normalizeText (toAnswerString q.answer) = "") :
    ∀ t : String, isShortAnswerCorrect q t = false := by
  intro t
  cases hb : isShortAnswerCorrect q t with
  | false => rfl
  | true => exact absurd h ((isShortAnswerCorrect_iff q t).mp hb).1

/-- Witness for C5 at a `null` ground truth (stringified to `""`). -/
theorem shortAnswer_empty_truth_never_correct_witness :
    isShortAnswerCorrect ⟨"q1", "p", none, Jval.jnull⟩ "anything" = false :=
  shortAnswer_empty_truth_never_correct ⟨"q1", "p", none, Jval.jnull⟩ (by decide) "anything"

/-- C7: a question whose id is absent from the answer map contributes `0`
and drops out of the total; `computeScore` is total, so it returns
normally on such inputs. -/
theorem unanswered_question_scores_zero (a : AnswerMap) (q : Question) (qs : List Question)
    (h : a q.id = none) :
    questionPoints a q = 0 ∧ computeScore a (q :: qs) = computeScore a qs := by
  have hp : questionPoints a q = 0 := by
    unfold questionPoints
    cases hg : getChoices q <;> simp [h]
  exact ⟨hp, by rw [computeScore_cons, hp, Nat.zero_add]⟩

/-- Witness for C7: the empty answer map leaves a question unscored. -/
theorem unanswered_question_scores_zero_witness :
    computeScore (fun _ => none) [⟨"q1", "p", none, Jval.jstr "x"⟩] =
      computeScore (fun _ => none) [] :=
  (unanswered_question_scores_zero (fun _ => none) ⟨"q1", "p", none, Jval.jstr "x"⟩ [] rfl).2

/-- C8: the computed score never exceeds the number of questions, and
every question contributes either `0` or `1` (the score is a natural
number, hence also at least `0`). -/
theorem computeScore_bounds (a : AnswerMap) (qs : List Question) :
    computeScore a qs ≤ qs.length ∧
      ∀ q, questionPoints a q = 0 ∨ questionPoints a q = 1 := by
  constructor
  · induction qs with
    | nil => exact Nat.le_refl 0
    | cons q rest ih =>
        rw [computeScore_cons, List.length_cons]
        have := questionPoints_le_one a q
        omega
  · intro q
    have := questionPoints_le_one a q
    omega

/-- Counterexample to C3 as stated: for the one-question list whose
short-answer ground truth stringifies to `""`, the answer map that
records exactly the stringified ground truth still scores `0`, not the
question count `1`, because an empty normalized ground truth is never
correct. -/
theorem roundTrip_counterexample :
    (∀ q ∈ [qEmptyTruth],
        getChoices q = none ∧
        ansEmptyTruth q.id = some (SavedAnswer.text (toAnswerString q.answer))) ∧
    computeScore ansEmptyTruth [qEmptyTruth] = 0 ∧ [qEmptyTruth].length = 1 := by
  decide

/-- C3 amended: if the answer map records the exact ground truth for
every question (the located ground-truth choice index for multiple-choice
questions, the stringified ground truth as text for short-answer
questions) and every short-answer ground truth normalizes to a non-empty
string, then the computed score equals the number of questions. -/
theorem computeScore_roundTrip (a : AnswerMap) (qs : List Question)
    (h : ∀ q ∈ qs,
        (∀ cs, getChoices q = some cs →
            ∃ ci, getCorrectIndex q (some cs) = some ci ∧
              a q.id = some (SavedAnswer.mc ci)) ∧
        (getChoices q = none →
            normalizeText (toAnswerString q.answer) ≠ "" ∧
            a q.id = some (SavedAnswer.text (toAnswerString q.answer)))) :
    computeScore a qs = qs.length := by
  induction qs with
  | nil => rfl
  | cons q rest ih =>
      have hq := h q (List.mem_cons_self q rest)
      have hp : questionPoints a q = 1 := by
        cases hg : getChoices q with
        | some cs =>
            obtain ⟨ci, hci, hA⟩ := hq.1 cs hg
            simp [questionPoints, hg, hA, hci]
        | none =>
            obtain ⟨hne, hA⟩ := hq.2 hg
            have hcorrect : isShortAnswerCorrect q (toAnswerString q.answer) = true :=
              (isShortAnswerCorrect_iff q _).mpr ⟨hne, rfl⟩
            simp [questionPoints, hg, hA, hcorrect]
      rw [computeScore_cons, hp, ih (fun q' hq' => h q' (List.mem_cons_of_mem q hq')),
        List.length_cons]
      omega

/-- Witness for the amended C3 on a concrete mixed question set. -/
theorem computeScore_roundTrip_witness : computeScore rtAns rtQs = rtQs.length :=
  computeScore_roundTrip rtAns rtQs (by
    intro q hq
    simp only [rtQs, List.mem_cons, List.not_mem_nil, or_false] at hq
    rcases hq with rfl | rfl
    · refine ⟨fun cs hcs => ?_, fun hnone => by simp [getChoices] at hnone⟩
      obtain rfl : ["x", "y"] = cs := Option.some.inj hcs
      exact ⟨1, by decide, by decide⟩
    · refine ⟨fun cs hcs => by simp [getChoices] at hcs, fun _ => ⟨by decide, by decide⟩⟩)

/-- Counterexample to C6 as stated: on a multiple-choice question whose
ground truth matches no rendered choice, the scorer does not fail; it
silently returns a normal score of `0` whichever choice is submitted, so
the violation is swallowed into an always-wrong score. -/
theorem invariantViolation_counterexample :
    getCorrectIndex qViolated (getChoices qViolated) = none ∧
    computeScore (fun _ => some (SavedAnswer.mc 0)) [qViolated] = 0 ∧
    computeScore (fun _ => some (SavedAnswer.mc 1)) [qViolated] = 0 := by
  decide

/-- C6 amended: when a multiple-choice question's ground truth matches no
entry of its rendered choice list, the scorer silently treats the
question as incorrectly answered under every answer map (it contributes
`0`), and `computeScore` returns normally; no fatal internal-consistency
failure is raised. -/
theorem invariantViolation_scored_zero (a : AnswerMap) (q : Question) (cs : List String)
    (hc : getChoices q = some cs)
    (hnone : getCorrectIndex q (some cs) = none) :
    questionPoints a q = 0 ∧ ∀ qs, computeScore a (q :: qs) = computeScore a qs := by
  have hp : questionPoints a q = 0 := by
    unfold questionPoints
    rcases hA : a q.id with _ | sa
    · simp [hc, hA]
    · cases sa <;> simp [hc, hA, hnone]
  exact ⟨hp, fun qs => by rw [computeScore_cons, hp, Nat.zero_add]⟩

/-- Witness for the amended C6 at the concrete violated question. -/
theorem invariantViolation_scored_zero_witness :
    questionPoints (fun _ => some (SavedAnswer.mc 0)) qViolated = 0 :=
  (invariantViolation_scored_zero (fun _ => some (SavedAnswer.mc 0)) qViolated
    ["1", "2"] rfl (by decide)).1

/-! Lemmas about trimming and whitespace collapsing, used to show that
the normalization of a string with a non-whitespace head is non-empty. -/

lemma headNotWs_dropWhile (l : List Char) : headNotWs (l.dropWhile ws) := by
  induction l with
  | nil => intro c hc; simp at hc
  | cons a rest ih =>
      cases ha : ws a with
      | true =>
          rw [List.dropWhile_cons_of_pos ha]
          exact ih
      | false =>
          rw [List.dropWhile_cons_of_neg (by simp [ha])]
          intro c hc
          have hac : a = c := by simpa using hc
          subst hac
          exact ha

lemma dropWhile_eq_self_of_headNotWs {l : List Char} (h : headNotWs l) :
    l.dropWhile ws = l := by
  cases l with
  | nil => rfl
  | cons a rest => rw [List.dropWhile_cons_of_neg (by simp [h a rfl])]

lemma dropWhile_ne_nil_of_mem {l : List Char} {c : Char} (hc : c ∈ l) (hws : ws c = false) :
    l.dropWhile ws ≠ [] := by
  induction l with
  | nil => cases hc
  | cons a rest ih =>
      cases ha : ws a with
      | false =>
          rw [List.dropWhile_cons_of_neg (by simp [ha])]
          exact List.cons_ne_nil a rest
      | true =>
          rw [List.dropWhile_cons_of_pos ha]
          rcases List.mem_cons.mp hc with rfl | hmem
          · rw [hws] at ha
            exact (Bool.false_ne_true ha).elim
          · exact ih hmem

lemma getLast?_cons_of_ne_nil {a : Char} {l : List Char} (h : l ≠ []) :
    (a :: l).getLast? = l.getLast? := by
  cases l with
  | nil => exact absurd rfl h
  | cons b rest => exact List.getLast?_cons_cons

lemma getLast?_dropWhile (l : List Char) (h : l.dropWhile ws ≠ []) :
    (l.dropWhile ws).getLast? = l.getLast? := by
  induction l with
  | nil => exact absurd rfl h
  | cons a rest ih =>
      cases ha : ws a with
      | false => rw [List.dropWhile_cons_of_neg (by simp [ha])]
      | true =>
          rw [List.dropWhile_cons_of_pos ha] at h ⊢
          have hrest : rest ≠ [] := by
            intro hr
            exact h (by rw [hr]; rfl)
          rw [ih h, getLast?_cons_of_ne_nil hrest]

lemma trimL_headNotWs (l : List Char) : headNotWs (trimL l) := by
  unfold trimL
  by_cases hnil : ((l.dropWhile ws).reverse).dropWhile ws = []
  · rw [hnil]
    intro c hc
    simp at hc
  · intro c hc
    rw [List.head?_reverse, getLast?_dropWhile _ hnil, List.getLast?_reverse] at hc
    exact headNotWs_dropWhile l c hc

lemma collapseAux_ne_nil {l : List Char} {c : Char} (hc : c ∈ l) (hws : ws c = false) :
    ∀ b, collapseAux b l ≠ [] := by
  induction l with
  | nil => cases hc
  | cons a rest ih =>
      intro b
      unfold collapseAux
      by_cases ha : ws a = true
      · rw [if_pos ha]
        rcases List.mem_cons.mp hc with rfl | hmem
        · rw [hws] at ha
          exact (Bool.false_ne_true ha).elim
        · cases b with
          | true => simpa using ih hmem true
          | false => simp
      · rw [if_neg ha]
        exact List.cons_ne_nil _ _

/-! Lemmas for the JSON-serialized object comparison. -/

lemma mem_of_head? {l : List Char} {c : Char} (h : l.head? = some c) : c ∈ l := by
  cases l with
  | nil => simp at h
  | cons a rest =>
      have hac : a = c := by simpa using h
      subst hac
      exact List.mem_cons_self a rest

lemma headNotWs_of_head? {l : List Char} {c : Char} (h : l.head? = some c)
    (hws : ws c = false) : headNotWs l := by
  intro c' hc'
  rw [h] at hc'
  have : c = c' := Option.some.inj hc'
  subst this
  exact hws

lemma normalizeTextL_ne_nil {l : List Char} {c : Char} (hc : l.head? = some c)
    (hws : ws c = false) : normalizeTextL l ≠ [] := by
  have hmem : c ∈ l := mem_of_head? hc
  have htrim_ne : trimL l ≠ [] := by
    unfold trimL
    intro hE
    have : (l.reverse.dropWhile ws).reverse = [] →
        l.reverse.dropWhile ws = [] := by
      intro h
      have := congrArg List.reverse h
      rwa [List.reverse_reverse] at this
    rw [dropWhile_eq_self_of_headNotWs (headNotWs_of_head? hc hws)] at hE
    exact dropWhile_ne_nil_of_mem (List.mem_reverse.mpr hmem) hws (this hE)
  obtain ⟨d, hd⟩ : ∃ d, (trimL l).head? = some d := by
    cases hT : trimL l with
    | nil => exact absurd hT htrim_ne
    | cons a t => exact ⟨a, rfl⟩
  have hdws : ws d = false := trimL_headNotWs l d hd
  have hcoll : collapseL (trimL l) ≠ [] :=
    collapseAux_ne_nil (mem_of_head? hd) hdws false
  unfold normalizeTextL
  simpa using hcoll

lemma serialize_jobj_data_head (fs : List (String × Jval)) :
    (serialize (Jval.jobj fs)).data.head? = some '\x7b' := by
  rw [show serialize (Jval.jobj fs) =
      "\x7b" ++ serializeFields fs ++ "\x7d" from by rw [serialize]]
  rw [String.data_append, String.data_append]
  rfl

lemma normalizeText_serialize_jobj_ne_empty (fs : List (String × Jval)) :
    normalizeText (serialize (Jval.jobj fs)) ≠ "" := by
  rw [Ne, string_eq_empty_iff]
  exact normalizeTextL_ne_nil (serialize_jobj_data_head fs) (by decide)

/-- C10: when a question's ground truth is a non-null object (such as the
date-range record), the comparison string used by the scorer is the JSON
serialization of that object, so a short-answer submission is correct
exactly when its normalized text equals the normalized JSON string (and
in particular not when it equals a differing human-rendered form). -/
theorem object_answer_scored_against_json (q : Question) (fs : List (String × Jval))
    (ha : q.answer = Jval.jobj fs) :
    toAnswerString q.answer = serialize (Jval.jobj fs) ∧
    ∀ t : String, (isShortAnswerCorrect q t = true ↔
        normalizeText t = normalizeText (serialize (Jval.jobj fs))) := by
  have hts : toAnswerString q.answer = serialize (Jval.jobj fs) := by
    rw [ha]
    rfl
  refine ⟨hts, fun t => ?_⟩
  rw [isShortAnswerCorrect_iff, hts]
  exact and_iff_right (normalizeText_serialize_jobj_ne_empty fs)

/-- Witness for C10 at the concrete date-range question: submitting the
JSON text of the object is correct, while the human-rendered arrow form
is not. -/
theorem object_answer_scored_against_json_witness :
    isShortAnswerCorrect drQ
      (serialize (Jval.jobj [("min", Jval.jstr "2020-01-01"), ("max", Jval.jstr "2020-12-31")]))
      = true ∧
    isShortAnswerCorrect drQ "2020-01-01 → 2020-12-31" = false :=
  ⟨((object_answer_scored_against_json drQ
      [("min", Jval.jstr "2020-01-01"), ("max", Jval.jstr "2020-12-31")] rfl).2 _).mpr rfl,
    by decide⟩

end PandsQai
